import Mathlib

/-!
Shallow embedding of the `etl-pipeline` repository (src/extract.py,
src/transform.py, src/validate.py, src/load.py, src/pipeline.py) and
verification of the frozen claims about it.

A pandas DataFrame is modelled as a `Table`: a list of column names plus a
list of rows, where every row is an association list from column name to a
scalar `Value`.  `pd.to_datetime(. , errors="coerce")` is modelled by an
arbitrary parse function `Value → Option Nat` (a timestamp is the number of
seconds since the epoch); the only facts about the pandas parser ever
assumed are stated explicitly as hypotheses where needed (a datetime value
re-parses to itself, a null stays null).
-/

namespace Etl

/-- Scalar cell value of a dataframe: integer, string, parsed timestamp
(seconds since the Unix epoch) or null/NaT/NaN. -/
inductive Value : Type where
  | int : Int → Value
  | str : String → Value
  | ts : Nat → Value
  | null : Value
deriving DecidableEq, Repr

/-- One row: an association list from column name to value.  Pandas keeps a
single column order for the whole frame; rows of a well-formed table all
carry the table's column list as their keys. -/
abbrev Row : Type := List (String × Value)

/-- First entry of the row with the given key, if any (pandas column access
`row[c]`). -/
def getEntry (c : String) : Row → Option Value
  | [] => none
  | p :: r => if p.1 = c then some p.2 else getEntry c r

/-- Value of column `c` in row `r` (null when the column is absent). -/
def getField (r : Row) (c : String) : Value :=
  (getEntry c r).getD Value.null

/-- Row-level column assignment: replace the value at the first entry with
key `c`, or append a new entry at the end — exactly how `df[c] = series`
behaves on an existing respectively a new column. -/
def setField (c : String) (v : Value) : Row → Row
  | [] => [(c, v)]
  | p :: r => if p.1 = c then (c, v) :: r else p :: setField c v r

/-- In-memory dataframe: ordered column names and rows. -/
structure Table : Type where
  cols : List String
  rows : List Row
deriving DecidableEq, Repr

/-- Column list after an assignment `df[c] = ...`: unchanged when `c` is
already a column, appended at the end otherwise. -/
def addCol (cols : List String) (c : String) : List String :=
  if c ∈ cols then cols else cols ++ [c]

/-- Table-level column assignment `df[c] = f(df)` where `f` reads each row
of the current frame. -/
def Table.setCol (t : Table) (c : String) (f : Row → Value) : Table :=
  ⟨addCol t.cols c, t.rows.map (fun r => setField c (f r) r)⟩

/-- Result of `pd.to_datetime(v, errors="coerce")` as a cell value: the
parsed timestamp, or null (NaT) when parsing fails. -/
def parseCell (parse : Value → Option Nat) (v : Value) : Value :=
  match parse v with
  | some n => Value.ts n
  | none => Value.null

/-- `series.dt.hour.fillna(-1).astype(int)` on one cell: the hour component
of a parsed timestamp, `-1` for NaT. -/
def hourOfDay : Value → Value
  | Value.ts n => Value.int ((n / 3600 % 24 : Nat) : Int)
  | _ => Value.int (-1)

/-- `series.dt.weekday.fillna(-1).astype(int)` on one cell: pandas weekday
(Monday = 0; the epoch day 1970-01-01 was a Thursday, index 3), `-1` for
NaT. -/
def weekdayOf : Value → Value
  | Value.ts n => Value.int (((n / 86400 + 3) % 7 : Nat) : Int)
  | _ => Value.int (-1)

/-- The three column assignments of transform.py lines 31-33 as one
row-level map (the hour column is parsed in place, then the two derived
columns are computed from the parsed hour). -/
def enrichRow (parse : Value → Option Nat) (r : Row) : Row :=
  let r1 := setField "hour" (parseCell parse (getField r "hour")) r
  let r2 := setField "hour_of_day" (hourOfDay (getField r1 "hour")) r1
  setField "weekday" (weekdayOf (getField r2 "hour")) r2

/-- Step 2 of `transform` (transform.py lines 30-33): when an `hour` column
is present, parse it in place and derive `hour_of_day` and `weekday`;
otherwise leave the table untouched. -/
def enrich (parse : Value → Option Nat) (t : Table) : Table :=
  if "hour" ∈ t.cols then
    let t1 := t.setCol "hour" (fun r => parseCell parse (getField r "hour"))
    let t2 := t1.setCol "hour_of_day" (fun r => hourOfDay (getField r "hour"))
    t2.setCol "weekday" (fun r => weekdayOf (getField r "hour"))
  else t

/-- Accumulator pass of duplicate removal: keep an element when it has not
been seen yet. -/
def dropDupAux {α : Type} [DecidableEq α] (seen : List α) : List α → List α
  | [] => []
  | a :: as => if a ∈ seen then dropDupAux seen as else a :: dropDupAux (a :: seen) as

/-- `df.drop_duplicates()` on the list of rows: keep the first occurrence
of every distinct element, in the original order. -/
def dropDup {α : Type} [DecidableEq α] (l : List α) : List α :=
  dropDupAux [] l

/-- Steps 2 and 3 of `transform` (transform.py lines 30-38): derive the
time features, then remove exact-duplicate rows.  Reading the input CSV and
writing the parquet file are modelled separately (`transform_write_format`).
-/
def transform (parse : Value → Option Nat) (t : Table) : Table :=
  ⟨(enrich parse t).cols, dropDup (enrich parse t).rows⟩

/-! File formats moved between the pipeline stages (pipeline.py, and the
read/write calls of transform.py, validate.py, load.py). -/

/-- On-disk serialization format of a staged/curated file. -/
inductive FileFormat : Type where
  | csv
  | parquet
deriving DecidableEq, Repr

/-- Characters of the extension, reading the reversed file name up to the
last dot; `none` when there is no dot, or when the only dot is the leading
character of the name (pathlib treats ".bashrc" as having no suffix). -/
def suffixCharsRev : List Char → Option (List Char)
  | [] => none
  | c :: cs =>
    if c = '.' then (if cs.isEmpty then none else some [])
    else (suffixCharsRev cs).map (fun l => c :: l)

/-- `pathlib.Path(p).suffix`: the final extension of the file name,
including the dot, or the empty string when there is none. -/
def pathSuffix (p : String) : String :=
  match suffixCharsRev p.data.reverse with
  | none => ""
  | some l => String.mk ('.' :: l.reverse)

/-- Format written by `transform` (transform.py line 41): it always calls
`df.to_parquet(out_path)`, whatever the suffix of `out_path` is. -/
def transform_write_format (_outPath : String) : FileFormat :=
  FileFormat.parquet

/-- Reader chosen by `validate_data` (validate.py line 25):
`pd.read_csv` when the path suffix is `.csv`, `pd.read_parquet` otherwise.
-/
def validate_read_format (p : String) : FileFormat :=
  if pathSuffix p = ".csv" then FileFormat.csv else FileFormat.parquet

/-- Reader used by `load_to_curated` (load.py line 53): always
`pd.read_csv`. -/
def load_read_format (_p : String) : FileFormat :=
  FileFormat.csv

/-- Staged file name handed from transform to validate and load in
`run_pipeline` (pipeline.py line 31). -/
def staged_filename : String := "train_transformed.csv"

/-! Validator (validate.py). -/

/-- One finding of `validate_data`, in the order the source logs them:
schema result, null-value result, one type warning per offending column,
uniqueness result. -/
inductive Finding : Type where
  | missingColumns : List String → Finding
  | schemaOk : Finding
  | nullsFound : List (String × Nat) → Finding
  | noNulls : Finding
  | nonNumeric : String → Finding
  | duplicatedIds : Nat → Finding
  | idsUnique : Finding
deriving DecidableEq, Repr

/-- The `expected_cols` literal of validate.py line 28. -/
def expected_cols : List String := ["id", "click", "hour", "banner_pos"]

/-- The column list of the type check loop, validate.py line 45. -/
def numeric_check_cols : List String := ["id", "click"]

/-- Values of column `c` down the table (the series `df[c]`). -/
def colValues (t : Table) (c : String) : List Value :=
  t.rows.map (fun r => getField r c)

/-- `df.isnull().sum()` restricted to the columns with a positive count
(the `null_report` of validate.py lines 38-39). -/
def nullReport (t : Table) : List (String × Nat) :=
  (t.cols.map (fun c => (c, (colValues t c).count Value.null))).filter
    (fun p => decide (0 < p.2))

/-- `pd.api.types.is_numeric_dtype(df[c])`: a column is numeric when every
cell is an integer or a null (an all-int column possibly holding NaN). -/
def isNumericCol (t : Table) (c : String) : Bool :=
  (colValues t c).all (fun v =>
    match v with
    | Value.int _ => true
    | Value.null => true
    | _ => false)

/-- `df["id"].duplicated().sum()`: the number of entries that repeat an
earlier entry, i.e. length minus the number of distinct first occurrences.
-/
def dupIdCount (t : Table) : Nat :=
  (colValues t "id").length - (dropDup (colValues t "id")).length

/-- The four data-quality checks of `validate_data` (validate.py lines
27-55), in source order: schema, nulls, types, id uniqueness.  Each emits
its findings whatever the earlier checks found. -/
def validate_data (t : Table) : List Finding :=
  (let missing := expected_cols.filter (fun c => decide (c ∉ t.cols))
   if missing.isEmpty then [Finding.schemaOk] else [Finding.missingColumns missing]) ++
  (let rep := nullReport t
   if rep.isEmpty then [Finding.noNulls] else [Finding.nullsFound rep]) ++
  ((numeric_check_cols.filter
      (fun c => decide (c ∈ t.cols) && !(isNumericCol t c))).map Finding.nonNumeric) ++
  (if "id" ∈ t.cols then
    (if 0 < dupIdCount t then [Finding.duplicatedIds (dupIdCount t)] else [Finding.idsUnique])
   else [])

/-- `validate_data` including the load step of validate.py line 25: the
only raise is a failure of the read itself; a table that loads is always
validated to a report. -/
def validate_file (loaded : Except String Table) : Except String (List Finding) :=
  match loaded with
  | Except.error e => Except.error e
  | Except.ok t => Except.ok (validate_data t)

/-- Classifier: findings produced by the schema check. -/
def isSchemaFinding : Finding → Bool
  | Finding.missingColumns _ => true
  | Finding.schemaOk => true
  | _ => false

/-- Classifier: findings produced by the null check. -/
def isNullFinding : Finding → Bool
  | Finding.nullsFound _ => true
  | Finding.noNulls => true
  | _ => false

/-- Classifier: findings produced by the type check. -/
def isTypeFinding : Finding → Bool
  | Finding.nonNumeric _ => true
  | _ => false

/-- Classifier: findings produced by the id-uniqueness check. -/
def isUniqueFinding : Finding → Bool
  | Finding.duplicatedIds _ => true
  | Finding.idsUnique => true
  | _ => false

/-! Loader (load.py). -/

/-- Environment the optional S3 upload runs in: whether boto3 imported,
whether AWS credentials resolve, whether the transfer itself fails. -/
structure AwsEnv : Type where
  boto3Installed : Bool
  hasCredentials : Bool
  uploadFails : Bool
deriving DecidableEq, Repr

/-- Exceptions the `try` block of `upload_to_s3` can see. -/
inductive S3Error : Type where
  | noCredentials
  | other
deriving DecidableEq, Repr

/-- The body of the `try` block (load.py lines 31-33): build a client and
upload, failing with `NoCredentialsError` or any other exception. -/
def s3_try_upload (env : AwsEnv) (bucket key : String) : Except S3Error (String × String) :=
  if !env.hasCredentials then Except.error S3Error.noCredentials
  else if env.uploadFails then Except.error S3Error.other
  else Except.ok (bucket, key)

/-- Log outcome of `upload_to_s3`; the function never lets an exception
escape. -/
inductive UploadLog : Type where
  | skippedNoBoto3
  | uploaded : String → String → UploadLog
  | skippedNoCredentials
  | uploadFailedLogged
deriving DecidableEq, Repr

/-- `upload_to_s3` (load.py lines 24-42): return early with a warning when
boto3 is absent, otherwise try the upload and absorb both
`NoCredentialsError` and any other exception into a log line. -/
def upload_to_s3 (env : AwsEnv) (bucket keyPref name : String) : UploadLog :=
  if !env.boto3Installed then UploadLog.skippedNoBoto3
  else
    match s3_try_upload env bucket (keyPref ++ name) with
    | Except.ok pair => UploadLog.uploaded pair.1 pair.2
    | Except.error S3Error.noCredentials => UploadLog.skippedNoCredentials
    | Except.error S3Error.other => UploadLog.uploadFailedLogged

/-- Outcome of `load_to_curated`: the curated table written locally, and
the upload log when the cloud step ran. -/
structure LoadResult : Type where
  curatedTable : Table
  localWritten : Bool
  upload : Option UploadLog
deriving DecidableEq, Repr

/-- `load_to_curated` (load.py lines 45-62): write the staged table to the
curated parquet file unconditionally, then optionally attempt the cloud
upload.  The upload step cannot fail the call. -/
def load_to_curated (env : AwsEnv) (staged : Table) (outName : String)
    (uploadCloud : Bool) : LoadResult :=
  ⟨staged, true,
    if uploadCloud then some (upload_to_s3 env "etl-demo-bucket" "curated/" outName) else none⟩

/-- Sample parser for concrete witnesses: a datetime value parses to
itself, one known string literal parses, everything else coerces to NaT —
an instance of the behaviour of `pd.to_datetime(., errors="coerce")`. -/
def parseDemo : Value → Option Nat
  | Value.ts n => some n
  | Value.str s => if s = "2014-10-21 07" then some 1413874800 else none
  | _ => none

/-! Helper lemmas about rows. -/

theorem getEntry_setField_self (c : String) (v : Value) (r : Row) :
    getEntry c (setField c v r) = some v := by
  induction r with
  | nil => simp [setField, getEntry]
  | cons p r ih =>
    by_cases h : p.1 = c
    · simp [setField, getEntry, h]
    · simp [setField, getEntry, h, ih]

theorem getEntry_setField_ne (c c' : String) (v : Value) (r : Row) (h : c' ≠ c) :
    getEntry c' (setField c v r) = getEntry c' r := by
  have hcc : ¬c = c' := fun hh => h hh.symm
  induction r with
  | nil => simp [setField, getEntry, hcc]
  | cons p r ih =>
    by_cases hp : p.1 = c
    · simp [setField, getEntry, hp, hcc]
    · simp only [setField, if_neg hp, getEntry]
      by_cases hp' : p.1 = c'
      · simp [hp']
      · simp [hp', ih]

theorem setField_of_getEntry (c : String) (v : Value) (r : Row)
    (h : getEntry c r = some v) : setField c v r = r := by
  induction r with
  | nil => simp [getEntry] at h
  | cons p r ih =>
    by_cases hp : p.1 = c
    · simp only [getEntry, if_pos hp, Option.some.injEq] at h
      simp only [setField, if_pos hp]
      rw [← hp, ← h]
    · simp only [getEntry, if_neg hp] at h
      simp [setField, hp, ih h]

theorem getField_setField_self (c : String) (v : Value) (r : Row) :
    getField (setField c v r) c = v := by
  simp [getField, getEntry_setField_self]

theorem getField_setField_ne (c c' : String) (v : Value) (r : Row) (h : c' ≠ c) :
    getField (setField c v r) c' = getField r c' := by
  simp [getField, getEntry_setField_ne c c' v r h]

/-! Helper lemmas about duplicate removal. -/

theorem mem_dropDupAux {α : Type} [DecidableEq α] (l : List α) :
    ∀ (seen : List α) (x : α), x ∈ dropDupAux seen l ↔ x ∈ l ∧ x ∉ seen := by
  induction l with
  | nil => intro seen x; simp [dropDupAux]
  | cons a as ih =>
    intro seen x
    by_cases ha : a ∈ seen
    · simp only [dropDupAux, if_pos ha, ih, List.mem_cons]
      constructor
      · rintro ⟨hx, hs⟩; exact ⟨Or.inr hx, hs⟩
      · rintro ⟨hx | hx, hs⟩
        · subst hx; exact absurd ha hs
        · exact ⟨hx, hs⟩
    · simp only [dropDupAux, if_neg ha, List.mem_cons, ih, List.mem_cons, not_or]
      constructor
      · rintro (hx | ⟨hx, hne, hs⟩)
        · subst hx; exact ⟨Or.inl rfl, ha⟩
        · exact ⟨Or.inr hx, hs⟩
      · rintro ⟨hx | hx, hs⟩
        · subst hx; exact Or.inl rfl
        · by_cases hxa : x = a
          · subst hxa; exact Or.inl rfl
          · exact Or.inr ⟨hx, hxa, hs⟩

theorem mem_dropDup {α : Type} [DecidableEq α] (l : List α) (x : α) :
    x ∈ dropDup l ↔ x ∈ l := by
  simp [dropDup, mem_dropDupAux]

theorem nodup_dropDupAux {α : Type} [DecidableEq α] (l : List α) :
    ∀ seen : List α, (dropDupAux seen l).Nodup := by
  induction l with
  | nil => intro seen; simp [dropDupAux]
  | cons a as ih =>
    intro seen
    by_cases ha : a ∈ seen
    · simpa [dropDupAux, if_pos ha] using ih seen
    · simp only [dropDupAux, if_neg ha, List.nodup_cons]
      refine ⟨fun hmem => ?_, ih (a :: seen)⟩
      rcases (mem_dropDupAux as (a :: seen) a).mp hmem with ⟨-, hs⟩
      exact hs (List.mem_cons_self a seen)

theorem nodup_dropDup {α : Type} [DecidableEq α] (l : List α) : (dropDup l).Nodup :=
  nodup_dropDupAux l []

theorem dropDupAux_eq_self {α : Type} [DecidableEq α] (l : List α) :
    ∀ seen : List α, l.Nodup → (∀ x ∈ l, x ∉ seen) → dropDupAux seen l = l := by
  induction l with
  | nil => intro seen _ _; rfl
  | cons a as ih =>
    intro seen hnd hdis
    have ha : a ∉ seen := hdis a (List.mem_cons_self a as)
    simp only [dropDupAux, if_neg ha, List.cons.injEq, true_and]
    refine ih (a :: seen) (List.Nodup.of_cons hnd) ?_
    intro x hx
    simp only [List.mem_cons, not_or]
    exact ⟨fun hxa => (List.nodup_cons.mp hnd).1 (hxa ▸ hx), hdis x (List.mem_cons_of_mem a hx)⟩

theorem dropDup_eq_self {α : Type} [DecidableEq α] (l : List α) (h : l.Nodup) :
    dropDup l = l :=
  dropDupAux_eq_self l [] h (fun x _ => List.not_mem_nil x)

theorem dropDup_idem {α : Type} [DecidableEq α] (l : List α) :
    dropDup (dropDup l) = dropDup l :=
  dropDup_eq_self (dropDup l) (nodup_dropDup l)

/-! Helper lemmas about the enrichment step. -/

theorem enrichRow_eq (parse : Value → Option Nat) (r : Row) :
    enrichRow parse r =
      setField "weekday" (weekdayOf (parseCell parse (getField r "hour")))
        (setField "hour_of_day" (hourOfDay (parseCell parse (getField r "hour")))
          (setField "hour" (parseCell parse (getField r "hour")) r)) := by
  simp only [enrichRow]
  rw [getField_setField_ne "hour_of_day" "hour" _ _ (by decide), getField_setField_self]

theorem getEntry_enrichRow_hour (parse : Value → Option Nat) (r : Row) :
    getEntry "hour" (enrichRow parse r) = some (parseCell parse (getField r "hour")) := by
  rw [enrichRow_eq]
  rw [getEntry_setField_ne "weekday" "hour" _ _ (by decide)]
  rw [getEntry_setField_ne "hour_of_day" "hour" _ _ (by decide)]
  exact getEntry_setField_self _ _ _

theorem getEntry_enrichRow_hod (parse : Value → Option Nat) (r : Row) :
    getEntry "hour_of_day" (enrichRow parse r)
      = some (hourOfDay (parseCell parse (getField r "hour"))) := by
  rw [enrichRow_eq]
  rw [getEntry_setField_ne "weekday" "hour_of_day" _ _ (by decide)]
  exact getEntry_setField_self _ _ _

theorem getEntry_enrichRow_weekday (parse : Value → Option Nat) (r : Row) :
    getEntry "weekday" (enrichRow parse r)
      = some (weekdayOf (parseCell parse (getField r "hour"))) := by
  rw [enrichRow_eq]
  exact getEntry_setField_self _ _ _

theorem getField_enrichRow_other (parse : Value → Option Nat) (r : Row) (c : String)
    (h1 : c ≠ "hour") (h2 : c ≠ "hour_of_day") (h3 : c ≠ "weekday") :
    getField (enrichRow parse r) c = getField r c := by
  rw [enrichRow_eq]
  rw [getField_setField_ne "weekday" c _ _ h3]
  rw [getField_setField_ne "hour_of_day" c _ _ h2]
  exact getField_setField_ne "hour" c _ _ h1

theorem enrichRow_idem (parse : Value → Option Nat)
    (hts : ∀ n, parse (Value.ts n) = some n) (hnull : parse Value.null = none)
    (r : Row) : enrichRow parse (enrichRow parse r) = enrichRow parse r := by
  have hpp : parseCell parse (parseCell parse (getField r "hour"))
      = parseCell parse (getField r "hour") := by
    unfold parseCell
    cases hq : parse (getField r "hour") with
    | some n => simp [hts n]
    | none => simp [hnull]
  have e1 := getEntry_enrichRow_hour parse r
  have e2 := getEntry_enrichRow_hod parse r
  have e3 := getEntry_enrichRow_weekday parse r
  have hf : getField (enrichRow parse r) "hour" = parseCell parse (getField r "hour") := by
    simp [getField, e1]
  conv_lhs => rw [enrichRow_eq]
  rw [hf, hpp]
  rw [setField_of_getEntry _ _ _ e1]
  rw [setField_of_getEntry _ _ _ e2]
  exact setField_of_getEntry _ _ _ e3

theorem addCol_of_mem (cols : List String) (c : String) (h : c ∈ cols) :
    addCol cols c = cols := if_pos h

theorem mem_addCol_self (cols : List String) (c : String) : c ∈ addCol cols c := by
  unfold addCol
  by_cases h : c ∈ cols
  · simp [h]
  · simp [h]

theorem mem_addCol_of_mem (cols : List String) (c c' : String) (h : c' ∈ cols) :
    c' ∈ addCol cols c := by
  unfold addCol
  by_cases hc : c ∈ cols
  · simpa [hc]
  · simp [hc, List.mem_append, h]

theorem enrich_of_mem (parse : Value → Option Nat) (t : Table) (h : "hour" ∈ t.cols) :
    enrich parse t =
      ⟨addCol (addCol t.cols "hour_of_day") "weekday", t.rows.map (enrichRow parse)⟩ := by
  simp only [enrich, if_pos h, Table.setCol, List.map_map, addCol_of_mem _ _ h]
  rfl

theorem enrich_of_not_mem (parse : Value → Option Nat) (t : Table)
    (h : "hour" ∉ t.cols) : enrich parse t = t := if_neg h

theorem transform_of_not_mem (parse : Value → Option Nat) (t : Table)
    (h : "hour" ∉ t.cols) : transform parse t = ⟨t.cols, dropDup t.rows⟩ := by
  simp [transform, enrich_of_not_mem parse t h]

theorem table_eq_of (a b : Table) (h1 : a.cols = b.cols) (h2 : a.rows = b.rows) :
    a = b := by
  cases a; cases b; cases h1; cases h2; rfl

/-- Duplicate removal as the spec words it: keep each element, in order,
and remove from the remainder every exact duplicate of it, so that exactly
the first occurrence of every duplicated element survives. -/
def removeLaterDups {α : Type} [DecidableEq α] : List α → List α
  | [] => []
  | a :: as => a :: removeLaterDups (as.filter (fun b => decide ¬(b = a)))
termination_by l => l.length
decreasing_by
  simp only [List.length_cons]
  exact Nat.lt_succ_of_le (List.length_filter_le _ _)

theorem dropDupAux_eq_removeLaterDups {α : Type} [DecidableEq α] (l : List α) :
    ∀ seen : List α, dropDupAux seen l = removeLaterDups (l.filter (fun b => decide (b ∉ seen))) := by
  induction l with
  | nil => intro seen; simp [dropDupAux, removeLaterDups]
  | cons a as ih =>
    intro seen
    by_cases ha : a ∈ seen
    · rw [dropDupAux, if_pos ha, List.filter_cons]
      simp only [ha, not_true_eq_false, decide_False, Bool.false_eq_true, if_false]
      exact ih seen
    · rw [dropDupAux, if_neg ha, List.filter_cons]
      simp only [ha, not_false_eq_true, decide_True, if_true]
      rw [ih (a :: seen)]
      conv_rhs => rw [removeLaterDups]
      rw [List.filter_filter]
      have hsame : List.filter (fun b => decide (b ∉ a :: seen)) as
          = List.filter (fun b => decide ¬b = a && decide (b ∉ seen)) as := by
        apply List.filter_congr
        intro b _
        by_cases hb : b = a
        · simp [hb]
        · simp [hb, List.mem_cons]
      rw [hsame]

theorem dropDup_eq_removeLaterDups {α : Type} [DecidableEq α] (l : List α) :
    dropDup l = removeLaterDups l := by
  rw [dropDup, dropDupAux_eq_removeLaterDups l []]
  congr 1
  simp

theorem mem_transform_rows (parse : Value → Option Nat) (t : Table)
    (hh : "hour" ∈ t.cols) (r' : Row) (h : r' ∈ (transform parse t).rows) :
    ∃ r ∈ t.rows, r' = enrichRow parse r := by
  have hrows : (transform parse t).rows = dropDup (t.rows.map (enrichRow parse)) := by
    simp only [transform, enrich_of_mem parse t hh]
  rw [hrows] at h
  obtain ⟨r, hr, he⟩ := List.mem_map.mp ((mem_dropDup _ _).mp h)
  exact ⟨r, hr, he.symm⟩

theorem transform_fixed (parse : Value → Option Nat) (T : Table)
    (h1 : "hour" ∈ T.cols) (h2 : "hour_of_day" ∈ T.cols) (h3 : "weekday" ∈ T.cols)
    (hrows : ∀ r ∈ T.rows, enrichRow parse r = r) (hnodup : T.rows.Nodup) :
    transform parse T = T := by
  apply table_eq_of
  · simp only [transform, enrich_of_mem parse T h1]
    rw [addCol_of_mem _ _ h2, addCol_of_mem _ _ h3]
  · simp only [transform, enrich_of_mem parse T h1]
    have hmap : T.rows.map (enrichRow parse) = T.rows := by
      conv_rhs => rw [← List.map_id T.rows]
      exact List.map_congr_left hrows
    rw [hmap, dropDup_eq_self _ hnodup]

/-- Claim C1, as stated, is false on the code: `transform` does not leave
every pre-existing column unchanged, because line 31 of transform.py
replaces the values of the `hour` column itself by their coerced-datetime
parses.  Concretely, a one-row table whose `hour` cell is the unparseable
string "garbage" keeps its single row, but that row's `hour` value in the
output is null instead of the original string. -/
theorem c1_counterexample :
    getField [("hour", Value.str "garbage")] "hour" = Value.str "garbage" ∧
    (transform parseDemo ⟨["hour"], [[("hour", Value.str "garbage")]]⟩).rows
      = [[("hour", Value.null), ("hour_of_day", Value.int (-1)), ("weekday", Value.int (-1))]] ∧
    getField [("hour", Value.null), ("hour_of_day", Value.int (-1)), ("weekday", Value.int (-1))] "hour"
      ≠ Value.str "garbage" :=
  ⟨by decide, by decide, by decide⟩

/-- Claim C1 (amended): every surviving row of `transform` comes from an
input row in which every original column other than the ones the
derivation step assigns (`hour`, `hour_of_day`, `weekday`) is unchanged;
when an `hour` column is present its value is replaced by the parsed
timestamp (null on parse failure), and when it is absent the surviving row
is exactly the input row. -/
theorem c1_transform_nonderived_columns_unchanged (parse : Value → Option Nat)
    (t : Table) (r' : Row) (h : r' ∈ (transform parse t).rows) :
    ∃ r ∈ t.rows,
      (∀ c : String, c ≠ "hour" → c ≠ "hour_of_day" → c ≠ "weekday" →
        getField r' c = getField r c) ∧
      ("hour" ∈ t.cols → getField r' "hour" = parseCell parse (getField r "hour")) ∧
      ("hour" ∉ t.cols → r' = r) := by
  by_cases hh : "hour" ∈ t.cols
  · obtain ⟨r, hr, he⟩ := mem_transform_rows parse t hh r' h
    subst he
    refine ⟨r, hr, ?_, ?_, ?_⟩
    · intro c h1 h2 h3
      exact getField_enrichRow_other parse r c h1 h2 h3
    · intro _
      simp [getField, getEntry_enrichRow_hour]
    · intro hn
      exact absurd hh hn
  · rw [transform_of_not_mem parse t hh] at h
    refine ⟨r', (mem_dropDup _ _).mp h, fun c _ _ _ => rfl, fun hmem => absurd hmem hh,
      fun _ => rfl⟩

/-- Witness for the amended claim C1 at a concrete input: the surviving
row of a two-column table keeps its `a` value while its `hour` value is
the parse of the original. -/
theorem c1_witness :
    ([("a", Value.int 5), ("hour", Value.null), ("hour_of_day", Value.int (-1)),
        ("weekday", Value.int (-1))] ∈
      (transform parseDemo
        ⟨["a", "hour"], [[("a", Value.int 5), ("hour", Value.str "garbage")]]⟩).rows) ∧
    ∃ r ∈ ([[("a", Value.int 5), ("hour", Value.str "garbage")]] : List Row),
      (∀ c : String, c ≠ "hour" → c ≠ "hour_of_day" → c ≠ "weekday" →
        getField [("a", Value.int 5), ("hour", Value.null), ("hour_of_day", Value.int (-1)),
          ("weekday", Value.int (-1))] c = getField r c) ∧
      ("hour" ∈ (⟨["a", "hour"], [[("a", Value.int 5), ("hour", Value.str "garbage")]]⟩ : Table).cols →
        getField [("a", Value.int 5), ("hour", Value.null), ("hour_of_day", Value.int (-1)),
          ("weekday", Value.int (-1))] "hour" = parseCell parseDemo (getField r "hour")) ∧
      ("hour" ∉ (⟨["a", "hour"], [[("a", Value.int 5), ("hour", Value.str "garbage")]]⟩ : Table).cols →
        [("a", Value.int 5), ("hour", Value.null), ("hour_of_day", Value.int (-1)),
          ("weekday", Value.int (-1))] = r) :=
  ⟨by decide, c1_transform_nonderived_columns_unchanged parseDemo
    ⟨["a", "hour"], [[("a", Value.int 5), ("hour", Value.str "garbage")]]⟩ _ (by decide)⟩

/-- Claim C3: when an `hour` column is present, every output row of
`transform` has `hour_of_day` in {-1, 0, ..., 23} and `weekday` in
{-1, 0, ..., 6}, and every output row coming from an input row whose
`hour` value does not parse carries -1 in both derived columns.  The
embedding is a total function, so no exception is possible for malformed
individual values. -/
theorem c3_derived_column_ranges (parse : Value → Option Nat) (t : Table)
    (hh : "hour" ∈ t.cols) (r' : Row) (h : r' ∈ (transform parse t).rows) :
    (∃ i : Int, getField r' "hour_of_day" = Value.int i ∧ -1 ≤ i ∧ i ≤ 23) ∧
    (∃ j : Int, getField r' "weekday" = Value.int j ∧ -1 ≤ j ∧ j ≤ 6) ∧
    ∃ r ∈ t.rows, r' = enrichRow parse r ∧
      (parse (getField r "hour") = none →
        getField r' "hour_of_day" = Value.int (-1) ∧
        getField r' "weekday" = Value.int (-1)) := by
  obtain ⟨r, hr, he⟩ := mem_transform_rows parse t hh r' h
  have hod_eq : getField r' "hour_of_day" = hourOfDay (parseCell parse (getField r "hour")) := by
    rw [he]; simp [getField, getEntry_enrichRow_hod]
  have wd_eq : getField r' "weekday" = weekdayOf (parseCell parse (getField r "hour")) := by
    rw [he]; simp [getField, getEntry_enrichRow_weekday]
  refine ⟨?_, ?_, r, hr, he, ?_⟩
  · cases hq : parse (getField r "hour") with
    | some n =>
      refine ⟨((n / 3600 % 24 : Nat) : Int), ?_, ?_, ?_⟩
      · rw [hod_eq]; simp [parseCell, hq, hourOfDay]
      · have := Int.natCast_nonneg (n / 3600 % 24); omega
      · have hm : n / 3600 % 24 < 24 := Nat.mod_lt _ (by decide)
        omega
    | none =>
      refine ⟨-1, ?_, by decide, by decide⟩
      rw [hod_eq]; simp [parseCell, hq, hourOfDay]
  · cases hq : parse (getField r "hour") with
    | some n =>
      refine ⟨(((n / 86400 + 3) % 7 : Nat) : Int), ?_, ?_, ?_⟩
      · rw [wd_eq]; simp [parseCell, hq, weekdayOf]
      · have := Int.natCast_nonneg ((n / 86400 + 3) % 7); omega
      · have hm : (n / 86400 + 3) % 7 < 7 := Nat.mod_lt _ (by decide)
        omega
    | none =>
      refine ⟨-1, ?_, by decide, by decide⟩
      rw [wd_eq]; simp [parseCell, hq, weekdayOf]
  · intro hq
    constructor
    · rw [hod_eq]; simp [parseCell, hq, hourOfDay]
    · rw [wd_eq]; simp [parseCell, hq, weekdayOf]

/-- Witness for claim C3 at a concrete input with one unparseable hour. -/
theorem c3_witness :
    ("hour" ∈ (⟨["hour"], [[("hour", Value.str "garbage")]]⟩ : Table).cols) ∧
    ([("hour", Value.null), ("hour_of_day", Value.int (-1)), ("weekday", Value.int (-1))] ∈
      (transform parseDemo ⟨["hour"], [[("hour", Value.str "garbage")]]⟩).rows) ∧
    ((∃ i : Int, getField [("hour", Value.null), ("hour_of_day", Value.int (-1)),
        ("weekday", Value.int (-1))] "hour_of_day" = Value.int i ∧ -1 ≤ i ∧ i ≤ 23) ∧
     (∃ j : Int, getField [("hour", Value.null), ("hour_of_day", Value.int (-1)),
        ("weekday", Value.int (-1))] "weekday" = Value.int j ∧ -1 ≤ j ∧ j ≤ 6) ∧
     ∃ r ∈ ([[("hour", Value.str "garbage")]] : List Row),
       [("hour", Value.null), ("hour_of_day", Value.int (-1)), ("weekday", Value.int (-1))]
         = enrichRow parseDemo r ∧
       (parseDemo (getField r "hour") = none →
         getField [("hour", Value.null), ("hour_of_day", Value.int (-1)),
           ("weekday", Value.int (-1))] "hour_of_day" = Value.int (-1) ∧
         getField [("hour", Value.null), ("hour_of_day", Value.int (-1)),
           ("weekday", Value.int (-1))] "weekday" = Value.int (-1))) :=
  ⟨by decide, by decide,
    c3_derived_column_ranges parseDemo ⟨["hour"], [[("hour", Value.str "garbage")]]⟩
      (by decide) _ (by decide)⟩

/-- Claim C4: `transform` is idempotent at the table level.  The only
facts assumed about the pandas datetime parser are that an
already-parsed datetime re-parses to itself and a null stays null, which
is how `pd.to_datetime(., errors="coerce")` behaves on a datetime64
column. -/
theorem c4_transform_idempotent (parse : Value → Option Nat)
    (hts : ∀ n, parse (Value.ts n) = some n) (hnull : parse Value.null = none)
    (t : Table) : transform parse (transform parse t) = transform parse t := by
  by_cases hh : "hour" ∈ t.cols
  · have hcols1 : (transform parse t).cols = addCol (addCol t.cols "hour_of_day") "weekday" := by
      simp only [transform, enrich_of_mem parse t hh]
    have hrows1 : (transform parse t).rows = dropDup (t.rows.map (enrichRow parse)) := by
      simp only [transform, enrich_of_mem parse t hh]
    apply transform_fixed
    · rw [hcols1]
      exact mem_addCol_of_mem _ _ _ (mem_addCol_of_mem _ _ _ hh)
    · rw [hcols1]
      exact mem_addCol_of_mem _ _ _ (mem_addCol_self _ _)
    · rw [hcols1]
      exact mem_addCol_self _ _
    · intro r' hr'
      rw [hrows1] at hr'
      obtain ⟨r, -, he⟩ := List.mem_map.mp ((mem_dropDup _ _).mp hr')
      rw [← he]
      exact enrichRow_idem parse hts hnull r
    · rw [hrows1]
      exact nodup_dropDup _
  · rw [transform_of_not_mem parse t hh]
    rw [transform_of_not_mem parse ⟨t.cols, dropDup t.rows⟩ hh]
    exact table_eq_of _ _ rfl (dropDup_idem _)

/-- Witness for claim C4: the parser hypotheses hold for the sample parser
and idempotence follows at a concrete two-row table. -/
theorem c4_witness :
    (∀ n, parseDemo (Value.ts n) = some n) ∧ parseDemo Value.null = none ∧
    transform parseDemo (transform parseDemo
      ⟨["hour"], [[("hour", Value.str "garbage")], [("hour", Value.str "2014-10-21 07")]]⟩)
      = transform parseDemo
        ⟨["hour"], [[("hour", Value.str "garbage")], [("hour", Value.str "2014-10-21 07")]]⟩ :=
  ⟨fun _ => rfl, rfl,
    c4_transform_idempotent parseDemo (fun _ => rfl) rfl
      ⟨["hour"], [[("hour", Value.str "garbage")], [("hour", Value.str "2014-10-21 07")]]⟩⟩

/-- Claim C5: the rows `transform` outputs are exactly the enriched rows
with every exact duplicate of an earlier row removed, the first occurrence
kept in order (`removeLaterDups` states the spec's wording; the code's
accumulator pass is proved equal to it); on the spec's scenario — rows at
positions 2, 5 and 7 duplicating position 0 — the output keeps position 0,
drops 2, 5 and 7, and has 8 − 3 = 5 rows. -/
theorem c5_duplicate_removal (parse : Value → Option Nat) (t : Table) :
    ((transform parse t).rows = removeLaterDups (enrich parse t).rows) ∧
    ((transform parse ⟨["a", "b"],
        [[("a", Value.int 0), ("b", Value.int 0)],
         [("a", Value.int 1), ("b", Value.int 0)],
         [("a", Value.int 0), ("b", Value.int 0)],
         [("a", Value.int 3), ("b", Value.int 0)],
         [("a", Value.int 4), ("b", Value.int 0)],
         [("a", Value.int 0), ("b", Value.int 0)],
         [("a", Value.int 6), ("b", Value.int 0)],
         [("a", Value.int 0), ("b", Value.int 0)]]⟩).rows
      = [[("a", Value.int 0), ("b", Value.int 0)],
         [("a", Value.int 1), ("b", Value.int 0)],
         [("a", Value.int 3), ("b", Value.int 0)],
         [("a", Value.int 4), ("b", Value.int 0)],
         [("a", Value.int 6), ("b", Value.int 0)]]) ∧
    ((transform parse ⟨["a", "b"],
        [[("a", Value.int 0), ("b", Value.int 0)],
         [("a", Value.int 1), ("b", Value.int 0)],
         [("a", Value.int 0), ("b", Value.int 0)],
         [("a", Value.int 3), ("b", Value.int 0)],
         [("a", Value.int 4), ("b", Value.int 0)],
         [("a", Value.int 0), ("b", Value.int 0)],
         [("a", Value.int 6), ("b", Value.int 0)],
         [("a", Value.int 0), ("b", Value.int 0)]]⟩).rows.length = 8 - 3) := by
  refine ⟨dropDup_eq_removeLaterDups _, ?_, ?_⟩
  · rw [transform_of_not_mem parse _ (by decide)]
    decide
  · rw [transform_of_not_mem parse _ (by decide)]
    decide

/-- Claim C6: on a table without an `hour` column, `transform` adds no
column at all and only removes exact-duplicate rows. -/
theorem c6_no_hour_no_derivation (parse : Value → Option Nat) (t : Table)
    (h : "hour" ∉ t.cols) :
    (transform parse t).cols = t.cols ∧ (transform parse t).rows = dropDup t.rows := by
  rw [transform_of_not_mem parse t h]
  exact ⟨rfl, rfl⟩

/-- Witness for claim C6 at a concrete two-row table with one duplicate. -/
theorem c6_witness :
    ("hour" ∉ (⟨["a"], [[("a", Value.int 1)], [("a", Value.int 1)]]⟩ : Table).cols) ∧
    (transform parseDemo ⟨["a"], [[("a", Value.int 1)], [("a", Value.int 1)]]⟩).cols
      = (⟨["a"], [[("a", Value.int 1)], [("a", Value.int 1)]]⟩ : Table).cols ∧
    (transform parseDemo ⟨["a"], [[("a", Value.int 1)], [("a", Value.int 1)]]⟩).rows
      = dropDup (⟨["a"], [[("a", Value.int 1)], [("a", Value.int 1)]]⟩ : Table).rows :=
  ⟨by decide, c6_no_hour_no_derivation parseDemo
    ⟨["a"], [[("a", Value.int 1)], [("a", Value.int 1)]]⟩ (by decide)⟩

/-- Claim C2: in `run_pipeline` the staged file is named
`train_transformed.csv`; `transform` writes it with `to_parquet` whatever
the path suffix, while `validate_data` picks its reader from the `.csv`
suffix and `load_to_curated` always reads CSV — so the staged bytes are
parquet but both downstream stages parse them as CSV. -/
theorem c2_staged_format_mismatch :
    (∀ p : String, transform_write_format p = FileFormat.parquet) ∧
    pathSuffix staged_filename = ".csv" ∧
    validate_read_format staged_filename = FileFormat.csv ∧
    (∀ p : String, load_read_format p = FileFormat.csv) ∧
    FileFormat.parquet ≠ FileFormat.csv :=
  ⟨fun _ => rfl, by decide, by decide, fun _ => rfl, by decide⟩

/-! Helper lemmas about the validator's report. -/

theorem filter_map_nonNumeric_eq_nil (p : Finding → Bool)
    (hp : ∀ c, p (Finding.nonNumeric c) = false) (l : List String) :
    (l.map Finding.nonNumeric).filter p = [] := by
  induction l with
  | nil => rfl
  | cons a l ih => simp [List.filter_cons, hp, ih]

theorem filter_map_nonNumeric_type (l : List String) :
    (l.map Finding.nonNumeric).filter isTypeFinding = l.map Finding.nonNumeric := by
  apply List.filter_eq_self.mpr
  intro x hx
  obtain ⟨c, -, hc⟩ := List.mem_map.mp hx
  rw [← hc]
  rfl

theorem validate_filter_schema (t : Table) :
    (validate_data t).filter isSchemaFinding
      = (if (expected_cols.filter (fun c => decide (c ∉ t.cols))).isEmpty
         then [Finding.schemaOk]
         else [Finding.missingColumns (expected_cols.filter (fun c => decide (c ∉ t.cols)))]) := by
  simp only [validate_data, List.filter_append]
  rw [filter_map_nonNumeric_eq_nil isSchemaFinding (fun _ => rfl)]
  split_ifs <;> simp [isSchemaFinding]

/-- Claim C7, as stated, is false on the code: validate.py line 28 fixes
`expected_cols` as a literal local to `validate_data`, and the function's
only input is the staged path — there is no parameter or configuration
value carrying a required-columns list.  Concretely, validating a table
whose single column is `a` necessarily reports the whole constant list
`["id", "click", "hour", "banner_pos"]` missing; no invocation can check
any other list. -/
theorem c7_counterexample :
    (validate_data ⟨["a"], [[("a", Value.int 1)]]⟩).filter isSchemaFinding
      = [Finding.missingColumns ["id", "click", "hour", "banner_pos"]] := by decide

/-- Claim C7 (amended): the required-columns list of the schema check is
the hard-coded constant `expected_cols = ["id","click","hour","banner_pos"]`
and is not overridable: the schema findings of any two tables coincide as
soon as the tables agree on which of those four constant names they
contain, whatever else is configured or present. -/
theorem c7_required_columns_hardcoded (t t' : Table)
    (h : ∀ c ∈ expected_cols, (c ∈ t.cols ↔ c ∈ t'.cols)) :
    (validate_data t).filter isSchemaFinding = (validate_data t').filter isSchemaFinding := by
  rw [validate_filter_schema t, validate_filter_schema t']
  have hfilter : expected_cols.filter (fun c => decide (c ∉ t.cols))
      = expected_cols.filter (fun c => decide (c ∉ t'.cols)) := by
    apply List.filter_congr
    intro c hc
    simp [h c hc]
  rw [hfilter]

/-- Witness for the amended claim C7: two tables with different column
sets but the same four constant columns present get the same schema
findings. -/
theorem c7_witness :
    (∀ c ∈ expected_cols,
      (c ∈ (⟨["id", "click", "hour", "banner_pos", "x"], []⟩ : Table).cols ↔
       c ∈ (⟨["banner_pos", "hour", "click", "id"], []⟩ : Table).cols)) ∧
    (validate_data ⟨["id", "click", "hour", "banner_pos", "x"], []⟩).filter isSchemaFinding
      = (validate_data ⟨["banner_pos", "hour", "click", "id"], []⟩).filter isSchemaFinding :=
  ⟨by decide, c7_required_columns_hardcoded
    ⟨["id", "click", "hour", "banner_pos", "x"], []⟩
    ⟨["banner_pos", "hour", "click", "id"], []⟩ (by decide)⟩

/-- Claim C8: a table missing only `click` yields exactly one schema
warning naming `click`, and a table with `id` values [1,1,2,3] yields
exactly one uniqueness warning with duplicate count 1. -/
theorem c8_validation_report_examples :
    ((validate_data ⟨["id", "hour", "banner_pos"],
        [[("id", Value.int 7), ("hour", Value.int 0), ("banner_pos", Value.int 1)]]⟩).filter
      isSchemaFinding = [Finding.missingColumns ["click"]]) ∧
    ((validate_data ⟨["id"],
        [[("id", Value.int 1)], [("id", Value.int 1)], [("id", Value.int 2)],
         [("id", Value.int 3)]]⟩).filter isUniqueFinding
      = [Finding.duplicatedIds 1]) :=
  ⟨by decide, by decide⟩

/-- Claim C9: once a table loads, `validate_data` runs all four checks
unconditionally and independently — the report always holds exactly one
schema finding, exactly one null finding, exactly the type findings of the
present non-numeric checked columns, and exactly one uniqueness finding
when `id` is present — and the embedding is a total function, erroring
only when the read itself fails. -/
theorem c9_all_checks_run (t : Table) (e : String) :
    validate_file (Except.ok t) = Except.ok (validate_data t) ∧
    validate_file (Except.error e) = Except.error e ∧
    ((validate_data t).filter isSchemaFinding).length = 1 ∧
    ((validate_data t).filter isNullFinding).length = 1 ∧
    ((validate_data t).filter isTypeFinding
      = (numeric_check_cols.filter
          (fun c => decide (c ∈ t.cols) && !(isNumericCol t c))).map Finding.nonNumeric) ∧
    ((validate_data t).filter isUniqueFinding).length = (if "id" ∈ t.cols then 1 else 0) := by
  refine ⟨rfl, rfl, ?_, ?_, ?_, ?_⟩
  · rw [validate_filter_schema t]
    split_ifs <;> rfl
  · simp only [validate_data, List.filter_append, List.length_append]
    rw [filter_map_nonNumeric_eq_nil isNullFinding (fun _ => rfl)]
    split_ifs <;> simp [isNullFinding]
  · simp only [validate_data, List.filter_append]
    rw [filter_map_nonNumeric_type]
    split_ifs <;> simp [isTypeFinding]
  · simp only [validate_data, List.filter_append, List.length_append]
    rw [filter_map_nonNumeric_eq_nil isUniqueFinding (fun _ => rfl)]
    split_ifs <;> simp [isUniqueFinding]

/-- Claim C10: when boto3 is missing, credentials are absent, or the
transfer itself fails, `load_to_curated` still writes the curated file,
still reports the staged table as loaded, and the upload step degrades to
a logged skip or logged error — by construction no exception escapes. -/
theorem c10_load_never_raises (env : AwsEnv) (staged : Table) (outName : String)
    (h : env.boto3Installed = false ∨ env.hasCredentials = false ∨ env.uploadFails = true) :
    (load_to_curated env staged outName true).localWritten = true ∧
    (load_to_curated env staged outName true).curatedTable = staged ∧
    ((load_to_curated env staged outName true).upload = some UploadLog.skippedNoBoto3 ∨
     (load_to_curated env staged outName true).upload = some UploadLog.skippedNoCredentials ∨
     (load_to_curated env staged outName true).upload = some UploadLog.uploadFailedLogged) := by
  obtain ⟨b, c, f⟩ := env
  refine ⟨rfl, rfl, ?_⟩
  cases b <;> cases c <;> cases f <;>
    simp_all [load_to_curated, upload_to_s3, s3_try_upload]

/-- Witness for claim C10: with boto3 absent the upload is skipped with a
log line and the local write still succeeds. -/
theorem c10_witness :
    ((AwsEnv.mk false false false).boto3Installed = false ∨
     (AwsEnv.mk false false false).hasCredentials = false ∨
     (AwsEnv.mk false false false).uploadFails = true) ∧
    (load_to_curated (AwsEnv.mk false false false) ⟨["a"], []⟩ "f.parquet" true).localWritten = true ∧
    (load_to_curated (AwsEnv.mk false false false) ⟨["a"], []⟩ "f.parquet" true).curatedTable
      = (⟨["a"], []⟩ : Table) ∧
    ((load_to_curated (AwsEnv.mk false false false) ⟨["a"], []⟩ "f.parquet" true).upload
        = some UploadLog.skippedNoBoto3 ∨
     (load_to_curated (AwsEnv.mk false false false) ⟨["a"], []⟩ "f.parquet" true).upload
        = some UploadLog.skippedNoCredentials ∨
     (load_to_curated (AwsEnv.mk false false false) ⟨["a"], []⟩ "f.parquet" true).upload
        = some UploadLog.uploadFailedLogged) :=
  ⟨Or.inl rfl, c10_load_never_raises (AwsEnv.mk false false false) ⟨["a"], []⟩ "f.parquet"
    (Or.inl rfl)⟩

end Etl
